import Mathlib

/-!
Verification of `pip-review` (`pip_review/__main__.py`).

This file gives a shallow embedding of the pure core of the program —
`filter_forwards`, the `LIST_ONLY` / `INSTALL_ONLY` exclusion sets,
`parse_legacy` together with the `NAME_PATTERN` / `VERSION_PATTERN`
regular-expression matching it relies on, `InteractiveAsker.ask`,
`apply_whitelist_or_blacklist`, `update_packages`,
`get_outdated_packages` and `main` — and proves the specification's
claims about them.

External collaborators (the `re` module's backtracking engine, the
`subprocess` calls, the file system, `json.loads`, user input) are
modelled explicitly: regular expressions by a priority-ordered
backtracking matcher, side effects by an `Effect` trace, user input by
a list of raw input strings, and the remaining external behaviour by a
`World` record of oracles.
-/

namespace PipReview

/-! ### Argument forwarding (`filter_forwards`, lines 100-116) -/

/-- Models Python `arg.startswith('-')`. -/
def startsWithDash (s : String) : Bool :=
  match s.data with
  | [] => false
  | c :: _ => c = '-'

/-- Models Python `arg.lstrip('-')`: remove every leading `'-'`. -/
def stripDashes (s : String) : String :=
  ⟨s.data.dropWhile (fun c => c = '-')⟩

/-- The loop body of `filter_forwards`: walk the tokens keeping the
`admitted` flag, which starts out `false` in `filter_forwards`. -/
def filterForwardsAux (exclude : List String) : List String → Bool → List String
  | [], _ => []
  | arg :: rest, admitted =>
    if startsWithDash arg = false then
      if admitted then arg :: filterForwardsAux exclude rest admitted
      else filterForwardsAux exclude rest admitted
    else if stripDashes arg ∈ exclude then
      filterForwardsAux exclude rest false
    else
      arg :: filterForwardsAux exclude rest true

/-- `filter_forwards(args, exclude)`: return only the parts of `args`
that do not appear in `exclude`; `admitted` starts `false`. -/
def filter_forwards (args : List String) (exclude : List String) : List String :=
  filterForwardsAux exclude args false

/-- `LIST_ONLY`, the result of
`'l local path format not-required exclude-editable include-editable'.split()`. -/
def LIST_ONLY : List String :=
  ["l", "local", "path", "format", "not-required", "exclude-editable",
   "include-editable"]

/-- `INSTALL_ONLY`, the result of splitting
`'c constraint no-deps t target platform python-version implementation abi root
prefix b build src U upgrade upgrade-strategy force-reinstall I ignore-installed
ignore-requires-python no-build-isolation use-pep517 install-option global-option
compile no-compile no-warn-script-location no-warn-conflicts no-binary
only-binary prefer-binary no-clean require-hashes progress-bar'` on blanks. -/
def INSTALL_ONLY : List String :=
  ["c", "constraint", "no-deps", "t", "target", "platform", "python-version",
   "implementation", "abi", "root", "prefix", "b", "build", "src", "U",
   "upgrade", "upgrade-strategy", "force-reinstall", "I", "ignore-installed",
   "ignore-requires-python", "no-build-isolation", "use-pep517",
   "install-option", "global-option", "compile", "no-compile",
   "no-warn-script-location", "no-warn-conflicts", "no-binary", "only-binary",
   "prefer-binary", "no-clean", "require-hashes", "progress-bar"]

/-! ### Package records -/

/-- One outdated-package record, with the keys the program reads:
`name`, `version` (currently installed) and `latest_version`. -/
structure Pkg where
  name : String
  version : String
  latest_version : String
deriving DecidableEq

/-! ### A priority-ordered backtracking regular-expression model

Models the behaviour of the `re` module on the concrete patterns used
by the program.  `lengths fuel r s` enumerates, in backtracking
priority order (greedy quantifiers longest first, alternatives left
first), the lengths of the prefixes of `s` the expression `r` can
match; its head is the length `re` would match.  The `fuel` parameter
only forces structural termination; `matchLenAt` supplies more than
enough of it. -/

/-- Regular-expression abstract syntax: empty word, character class,
concatenation, (prioritised) alternation, greedy option, greedy star. -/
inductive RE where
  | eps : RE
  | cls : (Char → Bool) → RE
  | seq : RE → RE → RE
  | alt : RE → RE → RE
  | opt : RE → RE
  | star : RE → RE

/-- All prefix lengths `r` can match at the front of `s`, in
backtracking priority order.  In `star`, a body match of length 0 is
not iterated (the concrete patterns below never produce one). -/
def lengths : Nat → RE → List Char → List Nat
  | 0, _, _ => []
  | _ + 1, .eps, _ => [0]
  | _ + 1, .cls _, [] => []
  | _ + 1, .cls p, c :: _ => if p c then [1] else []
  | fuel + 1, .seq a b, s =>
    (lengths fuel a s).flatMap (fun n => (lengths fuel b (s.drop n)).map (fun m => n + m))
  | fuel + 1, .alt a b, s => lengths fuel a s ++ lengths fuel b s
  | fuel + 1, .opt a, s => lengths fuel a s ++ [0]
  | fuel + 1, .star a, s =>
    ((lengths fuel a s).filter (fun n => n ≠ 0)).flatMap
      (fun n => (lengths fuel (.star a) (s.drop n)).map (fun m => n + m)) ++ [0]

/-- Number of constructors of a regular expression, used to size fuel. -/
def reSize : RE → Nat
  | .eps => 1
  | .cls _ => 1
  | .seq a b => reSize a + reSize b + 1
  | .alt a b => reSize a + reSize b + 1
  | .opt a => reSize a + 1
  | .star a => reSize a + 1

/-- A single character, case-insensitively (`re.IGNORECASE`, ASCII). -/
def chI (c : Char) : RE := .cls (fun x => x.toLower = c)

/-- A literal word, case-insensitively. -/
def strI (s : String) : RE := s.data.foldr (fun c acc => .seq (chI c) acc) .eps

/-- `[0-9]` -/
def digitRE : RE := .cls Char.isDigit

/-- `e+` as `e · e*`. -/
def plusRE (r : RE) : RE := .seq r (.star r)

/-- `[-_\.]` -/
def sepCls : RE := .cls (fun c => c = '-' || c = '_' || c = '.')

/-- `[-_\.]?` -/
def sepOpt : RE := .opt sepCls

/-- `[a-z0-9]` under `re.IGNORECASE` (ASCII). -/
def alnumRE : RE := .cls (fun c => c.isDigit || c.isAlpha)

/-- `(?P<release>[0-9]+(?:\.[0-9]+)*)` -/
def releaseRE : RE :=
  .seq (plusRE digitRE) (.star (.seq (.cls (fun c => c = '.')) (plusRE digitRE)))

/-- `(?:(?P<epoch>[0-9]+)!)?` -/
def epochRE : RE := .opt (.seq (plusRE digitRE) (.cls (fun c => c = '!')))

/-- `(a|b|c|rc|alpha|beta|pre|preview)` -/
def preLRE : RE :=
  .alt (strI "a") (.alt (strI "b") (.alt (strI "c") (.alt (strI "rc")
    (.alt (strI "alpha") (.alt (strI "beta") (.alt (strI "pre") (strI "preview")))))))

/-- `(?P<pre>[-_\.]?(?P<pre_l>...)[-_\.]?(?P<pre_n>[0-9]+)?)?` -/
def preRE : RE := .opt (.seq sepOpt (.seq preLRE (.seq sepOpt (.opt (plusRE digitRE)))))

/-- `(?P<post_l>post|rev|r)` -/
def postLRE : RE := .alt (strI "post") (.alt (strI "rev") (strI "r"))

/-- `(?P<post>(?:-(?P<post_n1>[0-9]+))|(?:[-_\.]?(?P<post_l>...)[-_\.]?(?P<post_n2>[0-9]+)?))?` -/
def postRE : RE :=
  .opt (.alt (.seq (.cls (fun c => c = '-')) (plusRE digitRE))
             (.seq sepOpt (.seq postLRE (.seq sepOpt (.opt (plusRE digitRE))))))

/-- `(?P<dev>[-_\.]?(?P<dev_l>dev)[-_\.]?(?P<dev_n>[0-9]+)?)?` -/
def devRE : RE := .opt (.seq sepOpt (.seq (strI "dev") (.seq sepOpt (.opt (plusRE digitRE)))))

/-- `(?:\+(?P<local>[a-z0-9]+(?:[-_\.][a-z0-9]+)*))?` -/
def localRE : RE :=
  .opt (.seq (.cls (fun c => c = '+'))
             (.seq (plusRE alnumRE) (.star (.seq sepCls (plusRE alnumRE)))))

/-- The `packaging.version.VERSION_PATTERN` grammar, compiled with
`re.VERBOSE | re.IGNORECASE` at lines 30-33 of the source. -/
def VERSION_PATTERN : RE :=
  .seq (.opt (chI 'v'))
    (.seq (.seq epochRE (.seq releaseRE (.seq preRE (.seq postRE devRE)))) localRE)

/-- The length a Python-style match of `r` consumes at the front of
`s`, if any: the first entry of the priority-ordered enumeration. -/
def matchLenAt (r : RE) (s : List Char) : Option Nat :=
  (lengths (reSize r * (s.length + 1) * (s.length + 1) + 1) r s).head?

/-- The scanning loop of `re.finditer`: try to match at each position
left to right, emit non-overlapping matches, advance past each match
(at least one character). -/
def finditerAux (r : RE) : Nat → List Char → List (List Char)
  | 0, _ => []
  | _ + 1, [] => []
  | fuel + 1, c :: rest =>
    match matchLenAt r (c :: rest) with
    | some n => (c :: rest).take n :: finditerAux r fuel ((c :: rest).drop (max n 1))
    | none => finditerAux r fuel rest

/-- `re.finditer(r, s)`, returning the matched substrings
(`match.group()` for each match). -/
def finditer (r : RE) (s : List Char) : List (List Char) := finditerAux r s.length s

/-! ### Legacy parsing (`parse_legacy`, lines 207-220) -/

/-- A character of `NAME_PATTERN = re.compile(r'[a-z0-9_-]+', re.IGNORECASE)`
(ASCII model of the class under `IGNORECASE`). -/
def isNameChar (c : Char) : Bool := c.isAlpha || c.isDigit || c = '_' || c = '-'

/-- `NAME_PATTERN.match(line)`: the (greedy, maximal) run of name
characters anchored at the start of the line; `none` when the first
character already fails the class. -/
def nameMatchChars (cs : List Char) : Option (List Char) :=
  match cs.takeWhile isNameChar with
  | [] => none
  | l => some l

/-- A Python universal line-break character (`str.splitlines`). -/
def isLineBreak (c : Char) : Bool :=
  c = '\n' || c = '\r' || c = '\x0b' || c = '\x0c' ||
  c = '\x1c' || c = '\x1d' || c = '\x1e' || c = '\x85' ||
  c = ' ' || c = ' '

/-- Prepend a character to the first line of a line list (the
building step of `splitlinesChars` for an ordinary character). -/
def consHead (c : Char) : List (List Char) → List (List Char)
  | [] => [[c]]
  | l :: ls => (c :: l) :: ls

/-- `str.splitlines()`: split at every line-break character, `'\r\n'`
counting as a single break, with no entry for a trailing break. -/
def splitlinesChars : List Char → List (List Char)
  | [] => []
  | [c] => if isLineBreak c then [[]] else [[c]]
  | c :: c2 :: cs =>
    if isLineBreak c then
      if c = '\r' && c2 = '\n' then [] :: splitlinesChars cs
      else [] :: splitlinesChars (c2 :: cs)
    else consHead c (splitlinesChars (c2 :: cs))

/-- The body of the `parse_legacy` loop for one line: a record is
produced exactly when the name pattern matches at the start of the
line and the version pattern has exactly two matches in it. -/
def parseLine (cs : List Char) : List Pkg :=
  match nameMatchChars cs with
  | none => []
  | some n =>
    match finditer VERSION_PATTERN cs with
    | [v1, v2] => [⟨n.asString, v1.asString, v2.asString⟩]
    | _ => []

/-- `parse_legacy(pip_output)`: scan every line, collecting the
qualifying records in order. -/
def parse_legacy (pip_output : String) : List Pkg :=
  (splitlinesChars pip_output.data).flatMap parseLine

/-! ### `InteractiveAsker` (lines 153-174)

`ask` is modelled as a function of the asker state and of the stream
of raw user inputs; it returns `none` when the stream is exhausted
while the prompt loop is still asking (Python would raise `EOFError`). -/

/-- `answer.strip().lower()` (ASCII model of `str.lower`). -/
def normalizeAnswer (raw : String) : String :=
  ⟨(((raw.data.dropWhile Char.isWhitespace).reverse.dropWhile
      Char.isWhitespace).reverse).map Char.toLower⟩

/-- The effective answer of one prompt round: the normalised input,
with the empty string standing for the previous answer (which may be
absent, Python `None`). -/
def effAnswer (last : Option String) (raw : String) : Option String :=
  let a := normalizeAnswer raw
  if a = "" then last else some a

/-- `['y', 'n', 'a', 'q']`, the loop's accepted answers. -/
def validAnswers : List String := ["y", "n", "a", "q"]

/-- The `while answer not in ['y', 'n', 'a', 'q']` prompt loop:
consume raw inputs until one has a valid effective answer; also
return the unconsumed inputs. -/
def askLoop (last : Option String) : List String → Option (String × List String)
  | [] => none
  | raw :: rest =>
    match effAnswer last raw with
    | some v => if v ∈ validAnswers then some (v, rest) else askLoop last rest
    | none => askLoop last rest

/-- The state of an `InteractiveAsker` object. -/
structure InteractiveAsker where
  cached_answer : Option String
  last_answer : Option String
deriving DecidableEq

/-- `InteractiveAsker.ask`: return the cached answer at once when
there is one; otherwise run the prompt loop, cache the answer when it
is `'q'` or `'a'`, and record it as the last answer. -/
def InteractiveAsker.ask (st : InteractiveAsker) (inputs : List String) :
    Option (String × InteractiveAsker × List String) :=
  match st.cached_answer with
  | some c => some (c, st, inputs)
  | none =>
    match askLoop st.last_answer inputs with
    | none => none
    | some (v, rest) =>
      some (v, ⟨if v = "q" ∨ v = "a" then some v else st.cached_answer, some v⟩, rest)

/-- Whether an optional answer, when present, is one of the accepted
answers. -/
def validOpt : Option String → Bool
  | none => true
  | some c => validAnswers.contains c

/-- The reachable-state invariant of an asker: both stored answers,
when present, are accepted answers. -/
def askerInv (st : InteractiveAsker) : Bool :=
  validOpt st.cached_answer && validOpt st.last_answer

/-! ### `apply_whitelist_or_blacklist` (lines 239-248)

The `re.compile(pattern, re.IGNORECASE).search(name) is not None` test
is external; it is abstracted as the oracle `search pattern name`. -/

/-- `apply_whitelist_or_blacklist(packages, pattern, is_whitelist)`. -/
def apply_whitelist_or_blacklist (search : String → String → Bool)
    (packages : List Pkg) (pattern : String) (is_whitelist : Bool) : List Pkg :=
  if pattern = "" then packages
  else packages.filter (fun pkg => is_whitelist == search pattern pkg.name)

/-! ### Side effects and the orchestration (`update_packages`, `main`) -/

/-- An observable side effect: an overwritten file, or a spawned
subprocess together with the exit code the external world gave it. -/
inductive Effect where
  | writeFile : String → String → Effect
  | call : List String → Int → Effect
deriving DecidableEq

/-- Whether an effect is a subprocess invocation. -/
def Effect.isCall : Effect → Bool
  | .call _ _ => true
  | _ => false

/-- The external world: the interpreter path, the two pip-version
tests of `get_outdated_packages`, the outcome of `check_output`
(`Except.error retcode` models `CalledProcessError`), the external
`json.loads` decoder, the exit codes `subprocess.call` obtains, and
the `re.search` oracle used by the name filters. -/
structure World where
  exe : String
  pipGE6 : Bool
  pipGT9 : Bool
  checkOutput : List String → Except Int String
  jsonDecode : String → Option (List Pkg)
  exitCode : List String → Int
  search : String → String → Bool

/-- `pip_cmd()` = `[sys.executable, '-m', 'pip']`. -/
def pip_cmd (exe : String) : List String := [exe, "-m", "pip"]

/-- The content the freeze loop writes: one `'{0}=={1}\n'` line per
package, appended in order to an initially empty file. -/
def freezeContent (packages : List Pkg) : String :=
  packages.foldl (fun acc pkg => acc ++ pkg.name ++ "==" ++ pkg.version ++ "\n") ""

/-- `update_packages(packages, forwarded, continue_on_fail,
freeze_outdated_packages)`, as the trace of effects it performs. -/
def update_packages (w : World) (packages : List Pkg) (forwarded : List String)
    (continue_on_fail : Bool) (freeze_outdated_packages : Bool) : List Effect :=
  let upgrade_cmd := pip_cmd w.exe ++ ["install", "-U"] ++ forwarded
  let freezeEffs : List Effect :=
    if freeze_outdated_packages then
      [.writeFile "requirements.txt" (freezeContent packages)]
    else []
  let installEffs : List Effect :=
    if continue_on_fail = false then
      let cmd := upgrade_cmd ++ packages.map (fun pkg => pkg.name)
      [.call cmd (w.exitCode cmd)]
    else
      packages.map (fun pkg =>
        .call (upgrade_cmd ++ [pkg.name]) (w.exitCode (upgrade_cmd ++ [pkg.name])))
  freezeEffs ++ installEffs

/-- `get_outdated_packages(forwarded)`: build the listing command,
run it, and decode its output as JSON (pip > 9) or through
`parse_legacy` on the stripped output (pip ≤ 9).  A
`CalledProcessError` or a JSON decode failure is fatal. -/
def get_outdated_packages (w : World) (forwarded : List String) :
    List Effect × Except String (List Pkg) :=
  let command := pip_cmd w.exe ++ ["list", "--outdated"] ++ forwarded
  let command := if w.pipGE6 then command ++ ["--disable-pip-version-check"] else command
  if w.pipGT9 then
    let command := command ++ ["--format=json"]
    match w.checkOutput command with
    | .error retcode => ([.call command retcode], .error "CalledProcessError")
    | .ok output =>
      match w.jsonDecode output with
      | none => ([.call command 0], .error "json.loads: malformed output")
      | some packages => ([.call command 0], .ok packages)
  else
    match w.checkOutput command with
    | .error retcode => ([.call command retcode], .error "CalledProcessError")
    | .ok output => ([.call command 0], .ok (parse_legacy output.trim))

/-- The parsed command-line options of `parse_args`. -/
structure Args where
  verbose : Bool
  raw : Bool
  interactive : Bool
  auto : Bool
  continue_on_fail : Bool
  freeze_outdated_packages : Bool
  whitelist : String
  blacklist : String

/-- The interactive selection loop of `main`: ask once per package
(threading the single module-level asker state and the input stream),
selecting the packages answered `'y'` or `'a'`. -/
def runInteractive (st : InteractiveAsker) (inputs : List String) :
    List Pkg → Option (List Pkg × InteractiveAsker × List String)
  | [] => some ([], st, inputs)
  | pkg :: rest =>
    match st.ask inputs with
    | none => none
    | some (answer, st', inputs') =>
      match runInteractive st' inputs' rest with
      | none => none
      | some (sel, st'', inputs'') =>
        some ((if answer = "y" ∨ answer = "a" then pkg :: sel else sel), st'', inputs'')

/-- `main()` (lines 251-281): forwarded-argument classification, the
`--raw`/`--interactive` conflict check (a `SystemExit` before any
package-manager invocation), the listing, the two name filters, and
the auto / raw / interactive branches.  The result is the effect
trace together with the run's outcome. -/
def main (w : World) (args : Args) (forwarded : List String) (inputs : List String) :
    List Effect × Except String Unit :=
  let list_args := filter_forwards forwarded INSTALL_ONLY
  let install_args := filter_forwards forwarded LIST_ONLY
  if args.raw && args.interactive then
    ([], .error "--raw and --interactive cannot be used together")
  else
    match get_outdated_packages w list_args with
    | (effs, .error e) => (effs, .error e)
    | (effs, .ok outdated₀) =>
      let outdated₁ := apply_whitelist_or_blacklist w.search outdated₀ args.whitelist true
      let outdated := apply_whitelist_or_blacklist w.search outdated₁ args.blacklist false
      if outdated.isEmpty && !args.raw then
        (effs, .ok ())
      else if args.auto then
        (effs ++ update_packages w outdated install_args args.continue_on_fail
          args.freeze_outdated_packages, .ok ())
      else if args.raw then
        (effs, .ok ())
      else if args.interactive then
        match runInteractive ⟨none, none⟩ inputs outdated with
        | none => (effs, .error "EOFError")
        | some (selected, _, _) =>
          if selected.isEmpty then (effs, .ok ())
          else (effs ++ update_packages w selected install_args args.continue_on_fail
            args.freeze_outdated_packages, .ok ())
      else (effs, .ok ())

/-- A concrete external world, used to instantiate theorems. -/
def sampleWorld : World where
  exe := "python"
  pipGE6 := true
  pipGT9 := true
  checkOutput := fun _ => .ok ""
  jsonDecode := fun _ => none
  exitCode := fun _ => 0
  search := fun _ _ => false

/-- A concrete option record with `--raw` and `--interactive` set. -/
def sampleArgs : Args where
  verbose := false
  raw := true
  interactive := true
  auto := false
  continue_on_fail := false
  freeze_outdated_packages := false
  whitelist := ""
  blacklist := ""

end PipReview

namespace PipReview

/-! ### Theorems about `filter_forwards` -/

/-- Case rewrite: a bare token is kept exactly when `admitted`. -/
theorem filterForwardsAux_cons_bare {exclude : List String} {a : String}
    {rest : List String} {admitted : Bool} (h : startsWithDash a = false) :
    filterForwardsAux exclude (a :: rest) admitted =
      if admitted then a :: filterForwardsAux exclude rest admitted
      else filterForwardsAux exclude rest admitted := by
  rw [filterForwardsAux, if_pos h]

/-- Case rewrite: an excluded flag is dropped and blocks values. -/
theorem filterForwardsAux_cons_excluded {exclude : List String} {a : String}
    {rest : List String} {admitted : Bool} (h : startsWithDash a = true)
    (hm : stripDashes a ∈ exclude) :
    filterForwardsAux exclude (a :: rest) admitted = filterForwardsAux exclude rest false := by
  rw [filterForwardsAux, if_neg (by simp [h]), if_pos hm]

/-- Case rewrite: a non-excluded flag is emitted and admits values. -/
theorem filterForwardsAux_cons_flag {exclude : List String} {a : String}
    {rest : List String} {admitted : Bool} (h : startsWithDash a = true)
    (hm : stripDashes a ∉ exclude) :
    filterForwardsAux exclude (a :: rest) admitted = a :: filterForwardsAux exclude rest true := by
  rw [filterForwardsAux, if_neg (by simp [h]), if_neg hm]

/-- Helper: dropping leading dashes never removes an `'='`. -/
theorem mem_dropWhile_dash {l : List Char} (h : '=' ∈ l) :
    '=' ∈ l.dropWhile (fun c => c = '-') := by
  induction l with
  | nil => simp at h
  | cons c cs ih =>
    by_cases hc : c = '-'
    · subst hc
      have hd : ('-' :: cs).dropWhile (fun c => c = '-') = cs.dropWhile (fun c => c = '-') := by
        simp [List.dropWhile_cons]
      rw [hd]
      rcases List.mem_cons.mp h with h' | h'
      · exact absurd h'.symm (by decide)
      · exact ih h'
    · rw [List.dropWhile_cons]
      simp [hc, h]

/-- Helper: an emitted flag token is never in the exclusion set. -/
theorem mem_filterForwardsAux {exclude args : List String} {admitted : Bool} {t : String}
    (hmem : t ∈ filterForwardsAux exclude args admitted)
    (ht : startsWithDash t = true) :
    stripDashes t ∉ exclude := by
  induction args generalizing admitted with
  | nil => simp [filterForwardsAux] at hmem
  | cons a rest ih =>
    by_cases h1 : startsWithDash a = false
    · rw [filterForwardsAux] at hmem
      by_cases h2 : admitted
      · simp [h1, h2] at hmem
        rcases hmem with rfl | hmem
        · rw [ht] at h1; cases h1
        · exact ih hmem
      · simp [h1, h2] at hmem
        exact ih hmem
    · rw [Bool.not_eq_false] at h1
      rw [filterForwardsAux] at hmem
      by_cases h3 : stripDashes a ∈ exclude
      · simp [h1, h3] at hmem
        exact ih hmem
      · simp [h1, h3] at hmem
        rcases hmem with rfl | hmem
        · exact h3
        · exact ih hmem

/-- Helper: starting without an admitted flag, the first emitted token
is a flag token. -/
theorem head_filterForwardsAux {exclude args : List String} {x : String} {r : List String}
    (h : filterForwardsAux exclude args false = x :: r) :
    startsWithDash x = true := by
  induction args with
  | nil => simp [filterForwardsAux] at h
  | cons a rest ih =>
    rw [filterForwardsAux] at h
    by_cases h1 : startsWithDash a = false
    · simp [h1] at h
      exact ih h
    · rw [Bool.not_eq_false] at h1
      by_cases h3 : stripDashes a ∈ exclude
      · simp [h1, h3] at h
        exact ih h
      · simp [h1, h3, List.cons.injEq] at h
        rw [← h.1]
        exact h1

/-- Claim C1 (amended): `filter_forwards` never emits a flag token
whose dash-stripped name is in the exclusion set, and never emits a
bare value token unless some earlier emitted token was a flag. -/
theorem filter_forwards_emission (args exclude : List String) :
    (∀ t ∈ filter_forwards args exclude,
      startsWithDash t = true → stripDashes t ∉ exclude)
    ∧ (∀ i, i < (filter_forwards args exclude).length →
        startsWithDash ((filter_forwards args exclude).getD i "") = false →
        ∃ j, j < i ∧ startsWithDash ((filter_forwards args exclude).getD j "") = true) := by
  constructor
  · intro t hmem ht
    exact mem_filterForwardsAux hmem ht
  · intro i hi hbare
    rcases hr : filter_forwards args exclude with _ | ⟨x, r⟩
    · rw [hr] at hi; simp at hi
    · have hx : startsWithDash x = true := head_filterForwardsAux hr
      rcases Nat.eq_zero_or_pos i with rfl | hpos
      · rw [hr] at hbare
        simp [List.getD] at hbare
        rw [hbare] at hx
        cases hx
      · refine ⟨0, hpos, ?_⟩
        simpa using hx

/-- Claim C1 counterexample: with tokens `["-x", "a", "local"]` and
exclusion set `{"local"}` the code emits the bare token `"local"`,
whose dash-stripped name is in the exclusion set, and emits it right
after the bare token `"a"`, so neither part of the claim as stated
holds of the output. -/
theorem filter_forwards_claim_cex :
    filter_forwards ["-x", "a", "local"] ["local"] = ["-x", "a", "local"]
    ∧ "local" ∈ filter_forwards ["-x", "a", "local"] ["local"]
    ∧ stripDashes "local" ∈ (["local"] : List String)
    ∧ startsWithDash ((filter_forwards ["-x", "a", "local"] ["local"]).getD 2 "") = false
    ∧ startsWithDash ((filter_forwards ["-x", "a", "local"] ["local"]).getD 1 "") = false := by
  decide

/-- Witness for the amended claim C1 at a concrete input. -/
theorem filter_forwards_emission_witness :
    stripDashes "-x" ∉ (["local"] : List String) :=
  (filter_forwards_emission ["-x", "a"] ["local"]).1 "-x" (by decide) (by decide)


/-- Claim C10: `filter_forwards` excludes a flag token only when the
entire dash-stripped token is literally in the exclusion set, so when
the exclusion set holds bare flag names (no `'='` in any element), a
flag written as `--name=value` is always emitted and sets the
admitting state to true, even when `name` itself is excluded. -/
theorem filter_forwards_eq_value_token (exclude : List String) (t : String)
    (h1 : startsWithDash t = true) (h2 : '=' ∈ t.data)
    (h3 : ∀ e ∈ exclude, '=' ∉ e.data) :
    ∀ rest admitted, filterForwardsAux exclude (t :: rest) admitted
      = t :: filterForwardsAux exclude rest true := by
  intro rest admitted
  have hs : stripDashes t ∉ exclude := by
    intro hmem
    exact h3 _ hmem (mem_dropWhile_dash h2)
  rw [filterForwardsAux]
  simp [h1, hs]

/-- Witness for claim C10: `--path=x` is emitted even though `path`
is in the exclusion set. -/
theorem filter_forwards_eq_value_token_witness :
    filterForwardsAux ["path"] ["--path=x"] false = "--path=x" :: filterForwardsAux ["path"] [] true :=
  filter_forwards_eq_value_token ["path"] "--path=x" (by decide) (by decide)
    (by decide) [] false

/-- Claim C9: no flag name is in both `LIST_ONLY` and `INSTALL_ONLY`. -/
theorem list_install_only_disjoint :
    (∀ s ∈ LIST_ONLY, s ∉ INSTALL_ONLY) ∧ (∀ s ∈ INSTALL_ONLY, s ∉ LIST_ONLY) := by
  decide

/-- Witness for claim C9 at the concrete flag name `l`. -/
theorem list_install_only_disjoint_witness : "l" ∉ INSTALL_ONLY :=
  list_install_only_disjoint.1 "l" (by decide)

/-- Helper: for a flag token, the number of occurrences a run of the
filter emits is the input count when the stripped name is not
excluded, and zero when it is, whatever the starting state. -/
theorem count_filterForwardsAux (exclude : List String) (t : String)
    (ht : startsWithDash t = true) :
    ∀ args admitted, (filterForwardsAux exclude args admitted).count t
      = if stripDashes t ∈ exclude then 0 else args.count t := by
  intro args
  induction args with
  | nil => intro admitted; simp [filterForwardsAux]
  | cons a rest ih =>
    intro admitted
    by_cases h1 : startsWithDash a = false
    · have hat : a ≠ t := by
        intro h
        rw [h, ht] at h1
        cases h1
      rw [filterForwardsAux_cons_bare h1]
      by_cases h2 : admitted <;>
        simp [h2, List.count_cons, hat, ih]
    · rw [Bool.not_eq_false] at h1
      by_cases h3 : stripDashes a ∈ exclude
      · rw [filterForwardsAux_cons_excluded h1 h3, ih]
        by_cases hat : a = t
        · subst hat
          simp [h3]
        · simp [List.count_cons, hat]
      · rw [filterForwardsAux_cons_flag h1 h3, List.count_cons, ih]
        by_cases hat : a = t
        · subst hat
          simp [h3, List.count_cons]
        · simp [List.count_cons, hat]


/-- Claim C2 (amended): restricted to flag tokens, the two filtered
outputs' multiset union equals the input with every flag in neither
exclusion set counted twice; a shared flag keeps its full count in
both outputs, and a flag of exactly one exclusion set keeps its full
count in exactly the other operation's output.  (Bare value tokens
can be dropped from either output, so the claim is restricted to
flags.) -/
theorem filter_forwards_split_counts (args : List String) (t : String)
    (ht : startsWithDash t = true) :
    ((filter_forwards args INSTALL_ONLY).count t + (filter_forwards args LIST_ONLY).count t
      = (if stripDashes t ∈ LIST_ONLY ∨ stripDashes t ∈ INSTALL_ONLY then 1 else 2) * args.count t)
    ∧ (stripDashes t ∉ LIST_ONLY → stripDashes t ∉ INSTALL_ONLY →
        (filter_forwards args INSTALL_ONLY).count t = args.count t
        ∧ (filter_forwards args LIST_ONLY).count t = args.count t)
    ∧ (stripDashes t ∈ INSTALL_ONLY →
        (filter_forwards args INSTALL_ONLY).count t = 0
        ∧ (filter_forwards args LIST_ONLY).count t = args.count t)
    ∧ (stripDashes t ∈ LIST_ONLY →
        (filter_forwards args LIST_ONLY).count t = 0
        ∧ (filter_forwards args INSTALL_ONLY).count t = args.count t) := by
  have hdisj : ∀ s ∈ INSTALL_ONLY, s ∉ LIST_ONLY := by decide
  have hI := count_filterForwardsAux INSTALL_ONLY t ht args false
  have hL := count_filterForwardsAux LIST_ONLY t ht args false
  simp only [filter_forwards]
  refine ⟨?_, ?_, ?_, ?_⟩
  · rw [hI, hL]
    by_cases hLm : stripDashes t ∈ LIST_ONLY
    · have hIm : stripDashes t ∉ INSTALL_ONLY := fun h => hdisj _ h hLm
      simp [hLm, hIm]
    · by_cases hIm : stripDashes t ∈ INSTALL_ONLY
      · simp [hLm, hIm]
      · simp [hLm, hIm, two_mul]
  · intro hL2 hI2
    rw [hI, hL]
    simp [hI2, hL2]
  · intro hI2
    have hL2 : stripDashes t ∉ LIST_ONLY := hdisj _ hI2
    rw [hI, hL]
    simp [hI2, hL2]
  · intro hL2
    have hI2 : stripDashes t ∉ INSTALL_ONLY := fun h => hdisj _ h hL2
    rw [hI, hL]
    simp [hI2, hL2]

/-- Claim C2 counterexample: the bare token `"foo"` is dropped from
both outputs, so the multiset union of the two outputs does not give
back the input. -/
theorem filter_forwards_split_cex :
    filter_forwards ["foo"] INSTALL_ONLY = []
    ∧ filter_forwards ["foo"] LIST_ONLY = []
    ∧ startsWithDash "foo" = false
    ∧ (["foo"] : List String) ≠ [] := by decide

/-- Witness for the amended claim C2: the shared flag `--user` keeps
its count in both outputs. -/
theorem filter_forwards_split_counts_witness :
    (filter_forwards ["--user"] INSTALL_ONLY).count "--user"
      = (["--user"] : List String).count "--user"
    ∧ (filter_forwards ["--user"] LIST_ONLY).count "--user"
      = (["--user"] : List String).count "--user" :=
  (filter_forwards_split_counts ["--user"] "--user" (by decide)).2.1 (by decide) (by decide)


/-! ### Theorems about `apply_whitelist_or_blacklist` -/

/-- Claim C5: an empty pattern returns the input unchanged; a
non-empty pattern retains, in input order, exactly the records whose
name the (case-insensitive) search matches when `is_whitelist`, and
exactly those it does not match otherwise. -/
theorem apply_whitelist_or_blacklist_spec (search : String → String → Bool)
    (packages : List Pkg) (pattern : String) (is_whitelist : Bool) :
    (pattern = "" → apply_whitelist_or_blacklist search packages pattern is_whitelist = packages)
    ∧ (pattern ≠ "" →
        (apply_whitelist_or_blacklist search packages pattern is_whitelist).Sublist packages
        ∧ ∀ pkg : Pkg,
            (apply_whitelist_or_blacklist search packages pattern is_whitelist).count pkg
              = if search pattern pkg.name = is_whitelist then packages.count pkg else 0) := by
  constructor
  · intro h
    simp [apply_whitelist_or_blacklist, h]
  · intro h
    constructor
    · simp only [apply_whitelist_or_blacklist, if_neg h]
      exact List.filter_sublist _
    · intro pkg
      simp only [apply_whitelist_or_blacklist, if_neg h]
      by_cases hc : search pattern pkg.name = is_whitelist
      · rw [List.count_filter (by simp [hc])]
        simp [hc]
      · have hnm : pkg ∉ packages.filter (fun pkg2 => is_whitelist == search pattern pkg2.name) := by
          intro hmem
          rcases List.mem_filter.mp hmem with ⟨_, hp⟩
          rw [beq_iff_eq] at hp
          exact hc hp.symm
        rw [List.count_eq_zero_of_not_mem hnm]
        simp [hc]

/-- Witness for claim C5: the empty pattern is the identity. -/
theorem apply_whitelist_or_blacklist_spec_witness :
    apply_whitelist_or_blacklist (fun _ _ => false) [⟨"foo", "1.0", "2.0"⟩] "" true
      = [⟨"foo", "1.0", "2.0"⟩] :=
  (apply_whitelist_or_blacklist_spec (fun _ _ => false) [⟨"foo", "1.0", "2.0"⟩] "" true).1 rfl

/-! ### Theorems about `InteractiveAsker` -/

/-- Helper: when the prompt loop returns, it returned the effective
answer of the first raw input with a valid effective answer, consumed
exactly the inputs up to it, and every earlier input's effective
answer was invalid. -/
theorem askLoop_spec (last : Option String) :
    ∀ inputs v rest, askLoop last inputs = some (v, rest) →
      ∃ k, k < inputs.length
        ∧ effAnswer last (inputs.getD k "") = some v
        ∧ v ∈ validAnswers
        ∧ rest = inputs.drop (k + 1)
        ∧ ∀ j, j < k → ∀ w, effAnswer last (inputs.getD j "") = some w → w ∉ validAnswers := by
  intro inputs
  induction inputs with
  | nil => intro v rest h; simp [askLoop] at h
  | cons raw tl ih =>
    intro v rest h
    rw [askLoop] at h
    rcases he : effAnswer last raw with _ | w
    · simp only [he] at h
      obtain ⟨k, hk, h1, h2, h3, h4⟩ := ih v rest h
      refine ⟨k + 1, Nat.succ_lt_succ hk, by simpa using h1, h2, by simpa using h3, ?_⟩
      intro j hj w hw
      rcases j with _ | j
      · rw [List.getD_cons_zero, he] at hw
        cases hw
      · rw [List.getD_cons_succ] at hw
        exact h4 j (Nat.lt_of_succ_lt_succ hj) w hw
    · simp only [he] at h
      by_cases hv : w ∈ validAnswers
      · rw [if_pos hv, Option.some.injEq] at h
        simp only [Prod.mk.injEq] at h
        obtain ⟨rfl, rfl⟩ := h
        refine ⟨0, Nat.succ_pos _, ?_, hv, ?_, ?_⟩
        · rw [List.getD_cons_zero, he]
        · simp
        · intro j hj
          exact absurd hj (Nat.not_lt_zero j)
      · rw [if_neg hv] at h
        obtain ⟨k, hk, h1, h2, h3, h4⟩ := ih v rest h
        refine ⟨k + 1, Nat.succ_lt_succ hk, by simpa using h1, h2, by simpa using h3, ?_⟩
        intro j hj w2 hw
        rcases j with _ | j
        · rw [List.getD_cons_zero, he] at hw
          rw [Option.some.injEq] at hw
          rw [← hw]
          exact hv
        · rw [List.getD_cons_succ] at hw
          exact h4 j (Nat.lt_of_succ_lt_succ hj) w2 hw


/-- Claim C4: before a cached decision exists, `ask` returns the
effective answer of the first supplied input that is one of
`y`, `n`, `a`, `q` after trimming and lowercasing (an empty input
standing for the previous answer when one exists, the prompt
repeating otherwise); the cache is set exactly at the first `a` or
`q` answer, every later call returns the cached answer at once
without consuming input, and every returned value is one of the four
accepted answers. -/
theorem asker_ask_spec (st : InteractiveAsker) (inputs : List String)
    (hinv : askerInv st = true) :
    (∀ c, st.cached_answer = some c → st.ask inputs = some (c, st, inputs))
    ∧ (∀ v st2 rest, st.ask inputs = some (v, st2, rest) →
        v ∈ validAnswers
        ∧ askerInv st2 = true
        ∧ ((v = "a" ∨ v = "q") → st2.cached_answer = some v)
        ∧ (st.cached_answer = none → ¬(v = "a" ∨ v = "q") → st2.cached_answer = none)
        ∧ (st.cached_answer = none →
            ∃ k, k < inputs.length
              ∧ effAnswer st.last_answer (inputs.getD k "") = some v
              ∧ rest = inputs.drop (k + 1)
              ∧ ∀ j, j < k → ∀ w, effAnswer st.last_answer (inputs.getD j "") = some w
                  → w ∉ validAnswers)) := by
  constructor
  · intro c hc
    rw [InteractiveAsker.ask, hc]
  · intro v st2 rest h
    rcases hc : st.cached_answer with _ | c
    · rw [InteractiveAsker.ask, hc] at h
      rcases hl : askLoop st.last_answer inputs with _ | ⟨w, rest2⟩
      · rw [hl] at h
        cases h
      · rw [hl, Option.some.injEq] at h
        simp only [Prod.mk.injEq] at h
        obtain ⟨rfl, hst2, rfl⟩ := h
        obtain ⟨k, hk, h1, hvmem, h3, h4⟩ := askLoop_spec st.last_answer inputs w rest2 hl
        refine ⟨hvmem, ?_, ?_, ?_, fun _ => ⟨k, hk, h1, h3, h4⟩⟩
        · rw [← hst2]
          have hv4 := hvmem
          simp [validAnswers] at hv4
          rcases hv4 with rfl | rfl | rfl | rfl <;> decide
        · intro hv2
          rw [← hst2]
          simp only []
          rw [if_pos (hv2.elim (fun h2 => Or.inr h2) (fun h2 => Or.inl h2))]
        · intro _ hnv2
          rw [← hst2]
          simp only []
          rw [if_neg (fun h2 => hnv2 (h2.elim (fun h3 => Or.inr h3) (fun h3 => Or.inl h3)))]
    · rw [InteractiveAsker.ask, hc] at h
      rw [Option.some.injEq] at h
      simp only [Prod.mk.injEq] at h
      obtain ⟨rfl, rfl, rfl⟩ := h
      have hvmem : c ∈ validAnswers := by
        rw [askerInv, hc] at hinv
        have h5 := ((Bool.and_eq_true _ _).mp hinv).1
        simp only [validOpt] at h5
        simpa [validAnswers] using h5
      exact ⟨hvmem, hinv, fun _ => hc,
        fun hnone => absurd hnone (Option.some_ne_none c),
        fun hnone => absurd hnone (Option.some_ne_none c)⟩

/-- Witness for claim C4: a cached `q` is returned at once, with the
state unchanged and no input consumed. -/
theorem asker_ask_spec_witness :
    InteractiveAsker.ask ⟨some "q", some "q"⟩ []
      = some ("q", (⟨some "q", some "q"⟩ : InteractiveAsker), []) :=
  (asker_ask_spec ⟨some "q", some "q"⟩ [] (by decide)).1 "q" rfl


/-! ### Theorems about `update_packages` -/

/-- Helper: a single line break starts a new line in `splitlinesChars`. -/
theorem splitlinesChars_newline_cons (rest : List Char) :
    splitlinesChars ('\n' :: rest) = [] :: splitlinesChars rest := by
  cases rest with
  | nil => simp [splitlinesChars, isLineBreak]
  | cons c2 cs => simp [splitlinesChars, isLineBreak]

/-- Helper: a break-free chunk before a `'\n'` becomes one line. -/
theorem splitlinesChars_nobreak_append {l : List Char} (rest : List Char)
    (hl : ∀ c ∈ l, isLineBreak c = false) :
    splitlinesChars (l ++ '\n' :: rest) = l :: splitlinesChars rest := by
  induction l with
  | nil => simpa using splitlinesChars_newline_cons rest
  | cons c l2 ih =>
    have hc : isLineBreak c = false := hl c (List.mem_cons_self c l2)
    have hl2 : ∀ c2 ∈ l2, isLineBreak c2 = false := fun c2 h2 => hl c2 (List.mem_cons_of_mem c h2)
    cases l2 with
    | nil =>
      simp only [List.cons_append, List.nil_append]
      rw [show splitlinesChars (c :: '\n' :: rest)
            = consHead c (splitlinesChars ('\n' :: rest)) by simp [splitlinesChars, hc]]
      rw [splitlinesChars_newline_cons]
      simp [consHead]
    | cons d l3 =>
      rw [List.cons_append]
      have hstep : splitlinesChars (c :: (d :: l3 ++ '\n' :: rest))
          = consHead c (splitlinesChars (d :: l3 ++ '\n' :: rest)) := by
        rw [List.cons_append]
        simp [splitlinesChars, hc]
      rw [hstep, ih hl2]
      simp [consHead]

/-- Helper: a nonempty break-free string is a single line. -/
theorem splitlinesChars_nobreak {l : List Char} (hl : ∀ c ∈ l, isLineBreak c = false)
    (hne : l ≠ []) : splitlinesChars l = [l] := by
  induction l with
  | nil => cases hne rfl
  | cons c l2 ih =>
    have hc : isLineBreak c = false := hl c (List.mem_cons_self c l2)
    have hl2 : ∀ c2 ∈ l2, isLineBreak c2 = false := fun c2 h2 => hl c2 (List.mem_cons_of_mem c h2)
    cases l2 with
    | nil => simp [splitlinesChars, hc]
    | cons d l3 =>
      rw [show splitlinesChars (c :: d :: l3)
            = consHead c (splitlinesChars (d :: l3)) by simp [splitlinesChars, hc]]
      rw [ih hl2 (by simp)]
      simp [consHead]

/-- Helper: the characters the freeze loop writes, line by line. -/
theorem freezeContent_data (packages : List Pkg) :
    (freezeContent packages).data
      = (packages.map
          (fun p => p.name.data ++ ('=' :: '=' :: []) ++ p.version.data ++ ['\n'])).flatten := by
  have h2 : ("==" : String).data = '=' :: '=' :: [] := rfl
  have h3 : ("\n" : String).data = ['\n'] := rfl
  have hgen : ∀ (ps : List Pkg) (acc : String),
      (ps.foldl (fun acc pkg => acc ++ pkg.name ++ "==" ++ pkg.version ++ "\n") acc).data
        = acc.data
          ++ (ps.map (fun p => p.name.data ++ ('=' :: '=' :: []) ++ p.version.data ++ ['\n'])).flatten := by
    intro ps
    induction ps with
    | nil => intro acc; simp
    | cons p ps2 ih =>
      intro acc
      rw [List.foldl_cons, ih]
      simp [String.data_append, h2, h3]
  have := hgen packages ""
  simpa [freezeContent] using this

/-- Helper: splitting the freeze file content recovers exactly one
`name==version` line per package, in order. -/
theorem freezeContent_lines (packages : List Pkg)
    (h : ∀ p ∈ packages, (∀ c ∈ p.name.data, isLineBreak c = false)
          ∧ ∀ c ∈ p.version.data, isLineBreak c = false) :
    splitlinesChars (freezeContent packages).data
      = packages.map (fun p => (p.name ++ "==" ++ p.version).data) := by
  rw [freezeContent_data]
  induction packages with
  | nil => simp [splitlinesChars]
  | cons p ps ih =>
    have hp := h p (List.mem_cons_self p ps)
    have hps : ∀ q ∈ ps, (∀ c ∈ q.name.data, isLineBreak c = false)
        ∧ ∀ c ∈ q.version.data, isLineBreak c = false :=
      fun q hq => h q (List.mem_cons_of_mem p hq)
    have hline : ∀ c ∈ p.name.data ++ ('=' :: '=' :: []) ++ p.version.data,
        isLineBreak c = false := by
      intro c hc
      rcases List.mem_append.mp hc with hc2 | hc2
      · rcases List.mem_append.mp hc2 with hc3 | hc3
        · exact hp.1 c hc3
        · rcases List.mem_cons.mp hc3 with h4 | h4
          · subst h4; decide
          · rcases List.mem_cons.mp h4 with h5 | h5
            · subst h5; decide
            · simp at h5
      · exact hp.2 c hc2
    rw [List.map_cons, List.flatten_cons]
    have hassoc : (p.name.data ++ ('=' :: '=' :: []) ++ p.version.data ++ ['\n'])
          ++ (ps.map (fun p => p.name.data ++ ('=' :: '=' :: []) ++ p.version.data ++ ['\n'])).flatten
        = (p.name.data ++ ('=' :: '=' :: []) ++ p.version.data)
          ++ ('\n' :: (ps.map (fun p => p.name.data ++ ('=' :: '=' :: []) ++ p.version.data ++ ['\n'])).flatten) := by
      simp [List.append_assoc]
    rw [hassoc, splitlinesChars_nobreak_append _ hline, ih hps]
    simp [List.map_cons, String.data_append, show ("==" : String).data = ['=', '='] from rfl]

/-- Claim C6: with the freeze flag set, `update_packages` first (and
before any install invocation) overwrites `requirements.txt`, whose
content splits into exactly one `name==version` line per package in
list order, regardless of the continue-on-fail flag.  (The lines are
genuine lines when names and versions contain no line breaks.) -/
theorem update_packages_freeze_first (w : World) (packages : List Pkg)
    (forwarded : List String) (continue_on_fail : Bool)
    (h : ∀ p ∈ packages, (∀ c ∈ p.name.data, isLineBreak c = false)
          ∧ ∀ c ∈ p.version.data, isLineBreak c = false) :
    update_packages w packages forwarded continue_on_fail true
      = Effect.writeFile "requirements.txt" (freezeContent packages)
          :: update_packages w packages forwarded continue_on_fail false
    ∧ splitlinesChars (freezeContent packages).data
        = packages.map (fun p => (p.name ++ "==" ++ p.version).data) := by
  constructor
  · simp [update_packages]
  · exact freezeContent_lines packages h

/-- Witness for claim C6 on the spec's two-package example. -/
theorem update_packages_freeze_first_witness :
    update_packages sampleWorld [⟨"foo", "1.0", "2.0"⟩, ⟨"bar", "0.1", "0.2"⟩] [] false true
      = Effect.writeFile "requirements.txt"
          (freezeContent [⟨"foo", "1.0", "2.0"⟩, ⟨"bar", "0.1", "0.2"⟩])
        :: update_packages sampleWorld
            [⟨"foo", "1.0", "2.0"⟩, ⟨"bar", "0.1", "0.2"⟩] [] false false
    ∧ splitlinesChars (freezeContent [⟨"foo", "1.0", "2.0"⟩, ⟨"bar", "0.1", "0.2"⟩]).data
        = ([⟨"foo", "1.0", "2.0"⟩, ⟨"bar", "0.1", "0.2"⟩] : List Pkg).map
            (fun p => (p.name ++ "==" ++ p.version).data) :=
  update_packages_freeze_first sampleWorld
    [⟨"foo", "1.0", "2.0"⟩, ⟨"bar", "0.1", "0.2"⟩] [] false (by decide)

/-- Claim C7: with continue-on-fail set, the install subprocess is
invoked exactly once per package, in input order, each command being
the pip install prefix, the forwarded arguments and exactly that one
package name; the commands do not depend on any invocation's exit
code (`w.exitCode` is arbitrary), so a failure never prevents a later
invocation. -/
theorem update_packages_continue_each (w : World) (packages : List Pkg)
    (forwarded : List String) (freeze_outdated_packages : Bool) :
    (update_packages w packages forwarded true freeze_outdated_packages).filter Effect.isCall
      = packages.map (fun pkg =>
          Effect.call (pip_cmd w.exe ++ ["install", "-U"] ++ forwarded ++ [pkg.name])
            (w.exitCode (pip_cmd w.exe ++ ["install", "-U"] ++ forwarded ++ [pkg.name]))) := by
  have hm : ∀ (ps : List Pkg) (f : Pkg → List String),
      (ps.map (fun p => Effect.call (f p) (w.exitCode (f p)))).filter Effect.isCall
        = ps.map (fun p => Effect.call (f p) (w.exitCode (f p))) := by
    intro ps f
    induction ps with
    | nil => rfl
    | cons p tl ih => simp [Effect.isCall, ih]
  by_cases hf : freeze_outdated_packages = true <;>
    simp [update_packages, hf, List.filter_append, hm, Effect.isCall, List.append_assoc]


/-! ### Theorems about `main` -/

/-- Claim C8: requesting `--raw` and `--interactive` together makes
the run terminate with the descriptive message (a `SystemExit`, hence
a non-zero status) before any package-manager invocation: the effect
trace is empty, so neither the listing nor any install subprocess is
started. -/
theorem main_raw_interactive_conflict (w : World) (args : Args)
    (forwarded : List String) (inputs : List String)
    (hraw : args.raw = true) (hint : args.interactive = true) :
    main w args forwarded inputs
      = ([], .error "--raw and --interactive cannot be used together") := by
  simp [main, hraw, hint]

/-- Witness for claim C8 at a concrete configuration. -/
theorem main_raw_interactive_conflict_witness :
    main sampleWorld sampleArgs [] []
      = ([], .error "--raw and --interactive cannot be used together") :=
  main_raw_interactive_conflict sampleWorld sampleArgs [] [] rfl rfl

/-! ### Theorems about `parse_legacy` -/

/-- Claim C3: a line (one string free of line breaks) yields exactly
one record if and only if the name pattern matches at its start and
the version pattern has exactly two matches in it, the first match
becoming `version` and the second `latest_version`; every other line
yields no record (and no error). -/
theorem parse_legacy_line_spec (line : String)
    (hline : ∀ c ∈ line.data, isLineBreak c = false) :
    ((nameMatchChars line.data = none ∨ (finditer VERSION_PATTERN line.data).length ≠ 2) →
        parse_legacy line = [])
    ∧ (∀ n v1 v2, nameMatchChars line.data = some n →
        finditer VERSION_PATTERN line.data = [v1, v2] →
        parse_legacy line = [⟨n.asString, v1.asString, v2.asString⟩]) := by
  have hsplit : parse_legacy line = parseLine line.data ∨ (line.data = [] ∧ parse_legacy line = []) := by
    by_cases he : line.data = []
    · right
      refine ⟨he, ?_⟩
      rw [parse_legacy, he]
      rfl
    · left
      rw [parse_legacy, splitlinesChars_nobreak hline he]
      simp
  constructor
  · intro hcond
    rcases hsplit with hs | ⟨he, hs⟩
    · rw [hs, parseLine]
      rcases hn : nameMatchChars line.data with _ | n
      · rfl
      · simp only []
        rcases hcond with hc | hc
        · rw [hn] at hc
          cases hc
        · rcases hf : finditer VERSION_PATTERN line.data with _ | ⟨a, _ | ⟨b, _ | ⟨c, tl⟩⟩⟩
          · rfl
          · rfl
          · rw [hf] at hc
            simp at hc
          · rfl
    · exact hs
  · intro n v1 v2 hn hf
    rcases hsplit with hs | ⟨he, hs⟩
    · rw [hs, parseLine, hn]
      simp only []
      rw [hf]
    · rw [he] at hn
      rw [show nameMatchChars [] = none from rfl] at hn
      cases hn

/-- Witness for claim C3: the line `a 1 2` yields the single record
with name `a`, version `1` and latest version `2`. -/
theorem parse_legacy_line_spec_witness :
    parse_legacy "a 1 2" = [⟨"a", "1", "2"⟩] :=
  (parse_legacy_line_spec "a 1 2" (by decide)).2 ['a'] ['1'] ['2'] (by decide) (by decide)

end PipReview
